import Mathlib

/-!
Verification of the mdbook-mermaid core (src/lib.rs) against its design
specification. The token-stream transformer of add_mermaid is embedded
faithfully from the source; the external markdown parser and serializer
(pulldown-cmark and pulldown-cmark-to-cmark) are modelled from the spec on
the fragment of markdown exercised by the claims and the tests of the
repository.
-/

namespace MdbookMermaid

/-- Markdown dialect extension flags, embedding the pulldown-cmark Options
bits used in lib.rs lines 47 to 51. -/
inductive MarkdownOption where
  | tables
  | footnotes
  | strikethrough
  | tasklists
deriving DecidableEq, Repr

/-- Embedding of Options.empty from lib.rs line 47: the empty flag set. -/
def Options.empty : List MarkdownOption := []

/-- Embedding of Options.insert: adds one flag to the set. -/
def Options.insert (o : List MarkdownOption) (x : MarkdownOption) : List MarkdownOption :=
  o ++ [x]

/-- Embedding of lib.rs lines 47 to 51: the extension flag set built once in
add_mermaid and passed to the parser. -/
def opts : List MarkdownOption :=
  Options.insert (Options.insert (Options.insert (Options.insert Options.empty .tables)
    .footnotes) .strikethrough) .tasklists

/-- Embedding of the serializer call at lib.rs line 88: the cmark function is
invoked as cmark(events, buf, None). Its only optional argument, the resume
state, is None, and the cmark API has no parameter carrying an extension flag
set at all, so the extension configuration applied to the re-serialization
step is none. -/
def serialize_options : Option (List MarkdownOption) := none

/-- Column alignment carried by a Table tag (pulldown-cmark Alignment). -/
inductive Alignment where
  | noAlign
  | left
  | center
  | right
deriving DecidableEq, Repr

/-- Embedding of the pulldown-cmark Tag variants used by the repository:
paragraphs, headers, fenced code blocks with their info string, and table
structure. -/
inductive Tag where
  | paragraph
  | header (level : Nat)
  | codeBlock (info : String)
  | table (aligns : List Alignment)
  | tableHead
  | tableRow
  | tableCell
deriving DecidableEq, Repr

/-- Embedding of the pulldown-cmark Event variants used by the repository:
start and end markers, literal text runs, and raw HTML payloads. -/
inductive Event where
  | start (t : Tag)
  | stop (t : Tag)
  | text (s : String)
  | html (s : String)
deriving DecidableEq, Repr

/-- Error kinds of the transformation, from the spec error model: the
assertion at lib.rs lines 70 to 73 (a fenced block closing under a different
label than it opened) aborts the document and is surfaced as the internal
consistency fault. The modelled serializer is total, so no serialization
error arises in the model. -/
inductive MermaidError where
  | internalConsistencyFault
deriving DecidableEq, Repr

/-- Mutable state of the closure in add_mermaid (lib.rs lines 44 to 45):
the boolean in_mermaid_block flag and the mermaid_content accumulator. -/
structure MState where
  in_mermaid_block : Bool
  mermaid_content : String
deriving DecidableEq, Repr

/-- Embedding of the closure body at lib.rs lines 53 to 86, acting on one
event: returns the updated state together with the optionally emitted event,
or the internal consistency fault where the source asserts. The branch order
mirrors the source: a Start of a code block is examined first regardless of
state; any event seen outside a mermaid block passes through; inside a
mermaid block, a matching End flushes the accumulator into one raw HTML
event, a Text run is appended to the accumulator and discarded, a
mismatching End is the assertion failure, and anything else passes
through. -/
def step (s : MState) (e : Event) : Except MermaidError (MState × Option Event) :=
  match e with
  | .start (.codeBlock code) =>
      if code = "mermaid" then
        .ok ({ in_mermaid_block := true, mermaid_content := "" }, none)
      else
        .ok (s, some (Event.start (.codeBlock code)))
  | e' =>
      if s.in_mermaid_block = false then
        .ok (s, some e')
      else
        match e' with
        | .stop (.codeBlock code) =>
            if code = "mermaid" then
              .ok ({ s with in_mermaid_block := false },
                   some (.html ("<pre class=\"mermaid\">" ++ s.mermaid_content ++ "</pre>\n\n")))
            else
              .error .internalConsistencyFault
        | .text code =>
            .ok ({ s with mermaid_content := s.mermaid_content ++ code }, none)
        | e'' => .ok (s, some e'')

/-- Runs the closure over a whole event sequence, collecting the emitted
events in order, as the lazy map plus filter_map at lib.rs lines 53 and 87
does when the serializer drains the iterator. -/
def processEvents (s : MState) : List Event → Except MermaidError (List Event × MState)
  | [] => .ok ([], s)
  | e :: es =>
      match step s e with
      | .error err => .error err
      | .ok (s', oe) =>
          match processEvents s' es with
          | .error err => .error err
          | .ok (out, s'') => .ok (oe.toList ++ out, s'')

/-! Parser model. The parser is the external pulldown-cmark crate, not code
of this repository, so it is modelled from the spec on the markdown fragment
the claims and the tests exercise: ATX headings, paragraphs, fenced code
blocks, and pipe tables. All text manipulation is done by structural
recursion over character lists so that every definition evaluates inside the
kernel. -/

/-- Splits a character list at every occurrence of the separator character;
the separator is consumed. -/
def splitChar (sep : Char) : List Char → List (List Char)
  | [] => [[]]
  | c :: cs =>
      if c == sep then [] :: splitChar sep cs
      else
        match splitChar sep cs with
        | [] => [[c]]
        | l :: ls => (c :: l) :: ls

/-- Whitespace recognized when trimming cell and heading text. -/
def isBlank (c : Char) : Bool := c == ' ' || c == '\t'

/-- Trims blanks from both ends of a character list. -/
def trimChars (cs : List Char) : List Char :=
  ((cs.dropWhile isBlank).reverse.dropWhile isBlank).reverse

/-- Number of leading hash characters of a heading line. -/
def countHashes (l : List Char) : Nat := (l.takeWhile (fun c => c == '#')).length

/-- Cell texts of one pipe-table line: the segments between the pipes, with
surrounding whitespace trimmed. -/
def splitCells (l : List Char) : List String :=
  (((splitChar '|' l).drop 1).dropLast).map (fun c => String.mk (trimChars c))

/-- The three characters opening or closing a fence. -/
def fenceMarker : List Char := "```".data

/-- Lines that terminate a paragraph: blank lines and lines opening another
block construct. -/
def isSpecialLine (l : List Char) : Bool :=
  l.isEmpty || fenceMarker.isPrefixOf l || ['#'].isPrefixOf l || ['|'].isPrefixOf l

/-- Splits the lines of a fenced code block body from the rest: everything up
to the closing fence line, which is consumed. -/
def takeUntilFence : List (List Char) → List (List Char) × List (List Char)
  | [] => ([], [])
  | l :: ls =>
      if fenceMarker.isPrefixOf l then ([], ls)
      else
        let (b, r) := takeUntilFence ls
        (l :: b, r)

/-- Events of one table cell. -/
def cellEvents (c : String) : List Event :=
  [.start .tableCell, .text c, .stop .tableCell]

/-- Events of one pipe table: the first line is the head row, the second the
delimiter row, the remaining lines are body rows. -/
def tableEvents (tl : List (List Char)) : List Event :=
  match tl with
  | [] => []
  | headerLine :: rest =>
      let cells := splitCells headerLine
      let aligns := cells.map (fun _ => Alignment.noAlign)
      let rows := rest.drop 1
      [Event.start (.table aligns), Event.start .tableHead]
        ++ cells.flatMap cellEvents
        ++ [Event.stop .tableHead]
        ++ rows.flatMap (fun r =>
             Event.start .tableRow :: ((splitCells r).flatMap cellEvents ++ [Event.stop .tableRow]))
        ++ [Event.stop (.table aligns)]

/-- Joins lines back together with newline characters between them. -/
def joinLines : List (List Char) → List Char
  | [] => []
  | [l] => l
  | l :: ls => l ++ '\n' :: joinLines ls

/-- Modelled from the spec: the external parser turning markdown lines into
structural events, on the fragment used by the repository (headings,
paragraphs, fenced code blocks, and tables when the tables extension is
enabled). The fuel argument bounds the recursion and is instantiated with
more fuel than there are lines. -/
def parseLines (options : List MarkdownOption) : Nat → List (List Char) → List Event
  | 0, _ => []
  | _ + 1, [] => []
  | fuel + 1, l :: ls =>
      if l.isEmpty then parseLines options fuel ls
      else if fenceMarker.isPrefixOf l then
        let info := String.mk (trimChars (l.drop 3))
        let (body, rest) := takeUntilFence ls
        let textEvs :=
          if body.isEmpty then []
          else [Event.text (String.mk (body.flatMap (fun b => b ++ ['\n'])))]
        Event.start (.codeBlock info) ::
          (textEvs ++ (Event.stop (.codeBlock info) :: parseLines options fuel rest))
      else if ['#'].isPrefixOf l then
        let n := countHashes l
        Event.start (.header n) :: Event.text (String.mk (trimChars (l.drop n))) ::
          Event.stop (.header n) :: parseLines options fuel ls
      else if ['|'].isPrefixOf l && options.contains .tables then
        let tl := (l :: ls).takeWhile (fun x => ['|'].isPrefixOf x)
        let rest := (l :: ls).dropWhile (fun x => ['|'].isPrefixOf x)
        tableEvents tl ++ parseLines options fuel rest
      else
        let pl := ls.takeWhile (fun x => !isSpecialLine x)
        let rest := ls.dropWhile (fun x => !isSpecialLine x)
        Event.start .paragraph :: Event.text (String.mk (joinLines (l :: pl))) ::
          Event.stop .paragraph :: parseLines options fuel rest

/-- Modelled from the spec: Parser::new_ext of the external pulldown-cmark
crate, parsing a document body into its event sequence under the given
extension options. -/
def parse (options : List MarkdownOption) (content : String) : List Event :=
  let ls := splitChar '\n' content.data
  parseLines options (ls.length + 1) ls

/-! Serializer model. The re-serializer is the external
pulldown-cmark-to-cmark crate, not code of this repository, so it is
modelled from the spec: it reconstructs markdown source from the event
sequence, emits raw HTML payloads verbatim with no re-escaping, separates
blocks by one blank line, and writes tables back with the delimiter row
sized by the head cells, reproducing the outputs pinned by the tests of the
repository. -/

/-- State of the modelled serializer: the output buffer, the head cell texts
of the current table (most recent first), and whether the head row is being
written. -/
structure SState where
  out : String
  tableHeaders : List String
  inTableHead : Bool
deriving Repr

/-- True when the buffer already ends in a blank line. -/
def endsWithBlankLine (s : String) : Bool :=
  match s.data.reverse with
  | '\n' :: '\n' :: _ => true
  | _ => false

/-- Separator written before a new block: one blank line, unless the buffer
is empty or already ends in a blank line. -/
def blockSep (out : String) : String :=
  if out = "" then "" else if endsWithBlankLine out then "" else "\n\n"

/-- A run of n dash characters. -/
def dashes (n : Nat) : String := String.mk (List.replicate n '-')

/-- One step of the modelled serializer. -/
def serStep (s : SState) (e : Event) : SState :=
  match e with
  | .start (.header n) =>
      { s with out := s.out ++ blockSep s.out ++ String.mk (List.replicate n '#') ++ " " }
  | .stop (.header _) => s
  | .start .paragraph => { s with out := s.out ++ blockSep s.out }
  | .stop .paragraph => s
  | .start (.codeBlock info) =>
      { s with out := s.out ++ blockSep s.out ++ "````" ++ info ++ "\n" }
  | .stop (.codeBlock _) => { s with out := s.out ++ "````" }
  | .start (.table _) =>
      { s with out := s.out ++ blockSep s.out, tableHeaders := [], inTableHead := false }
  | .stop (.table _) => s
  | .start .tableHead => { s with out := s.out ++ "|", inTableHead := true }
  | .stop .tableHead =>
      { s with
        out := s.out ++ "\n|" ++
          String.join ((s.tableHeaders.reverse).map (fun h => dashes h.length ++ "|")),
        inTableHead := false }
  | .start .tableRow => { s with out := s.out ++ "\n|" }
  | .stop .tableRow => s
  | .start .tableCell => s
  | .stop .tableCell => { s with out := s.out ++ "|" }
  | .text t =>
      { s with out := s.out ++ t,
               tableHeaders := if s.inTableHead then t :: s.tableHeaders else s.tableHeaders }
  | .html h => { s with out := s.out ++ blockSep s.out ++ h }

/-- Modelled from the spec: the cmark function of the external
pulldown-cmark-to-cmark crate, reconstructing markdown text from an event
sequence. -/
def cmark (events : List Event) : String :=
  (events.foldl serStep { out := "", tableHeaders := [], inTableHead := false }).out

/-- Embedding of add_mermaid (lib.rs lines 42 to 91): parse the content with
the extension options, run the transforming closure over the events, and
re-serialize the surviving events; the assertion failure inside the closure
aborts the document. -/
def add_mermaid (content : String) : Except MermaidError String :=
  match processEvents { in_mermaid_block := false, mermaid_content := "" } (parse opts content) with
  | .error e => .error e
  | .ok (evs, _) => .ok (cmark evs)

/-- Modelled from the spec: normalize collapses insignificant whitespace and
makes no semantic change; per the regression test comment, this is exactly
the whitespace normalization a parse and re-serialize roundtrip (with no
transformation applied) performs. -/
def normalize (content : String) : String :=
  cmark (parse opts content)

/-! Book model. Embedding of the mdbook Book tree the preprocessor walks:
chapters carry a name, a content body, a path and nested sub items;
separators carry nothing. -/

/-- Embedding of mdbook BookItem: a chapter (with the fields the walker can
touch: name, content, path, sub_items) or a separator. -/
inductive BookItem where
  | chapter (name : String) (content : String) (path : String) (subItems : List BookItem)
  | separator
deriving Repr

/-- Embedding of apply_to_sections together with apply_to_chapter (lib.rs
lines 25 to 40): every chapter has its content replaced by the add_mermaid
output and its sub items processed recursively; separators are left alone;
the first error aborts. -/
def apply_to_sections : List BookItem → Except MermaidError (List BookItem)
  | [] => .ok []
  | .separator :: rest =>
      match apply_to_sections rest with
      | .error e => .error e
      | .ok rest' => .ok (.separator :: rest')
  | .chapter name content path subs :: rest =>
      match add_mermaid content with
      | .error e => .error e
      | .ok content' =>
          match apply_to_sections subs with
          | .error e => .error e
          | .ok subs' =>
              match apply_to_sections rest with
              | .error e => .error e
              | .ok rest' => .ok (.chapter name content' path subs' :: rest')

/-- Embedding of the mdbook Book: its list of sections. -/
structure Book where
  sections : List BookItem
deriving Repr

/-- Embedding of Mermaid::run (lib.rs lines 14 to 18): applies
apply_to_sections to the sections of the book and returns the updated
book. -/
def run (book : Book) : Except MermaidError Book :=
  match apply_to_sections book.sections with
  | .error e => .error e
  | .ok sections' => .ok { sections := sections' }

/-- Relation stating that an output item list is the input item list with
every chapter body rewritten in place by add_mermaid, recursively through
sub items, with separators, the tree shape, and all other chapter fields
(name and path) unchanged. -/
inductive ChapterwiseRewritten : List BookItem → List BookItem → Prop where
  | nil : ChapterwiseRewritten [] []
  | sep {xs ys : List BookItem} :
      ChapterwiseRewritten xs ys →
      ChapterwiseRewritten (.separator :: xs) (.separator :: ys)
  | chap {n c p : String} {c' : String} {subs subs' xs ys : List BookItem} :
      add_mermaid c = .ok c' →
      ChapterwiseRewritten subs subs' →
      ChapterwiseRewritten xs ys →
      ChapterwiseRewritten (.chapter n c p subs :: xs) (.chapter n c' p subs' :: ys)

/-! Segment view of an event stream: a document is a sequence of mermaid
blocks interleaved with arbitrary other events. This is the shape under
which the per-block guarantees of the transformer are stated. -/

/-- One segment of a document event stream: a whole mermaid fenced block
(its text runs) or a single passthrough event. -/
inductive Seg where
  | mermaidBlock (texts : List String)
  | passthrough (e : Event)
deriving DecidableEq, Repr

/-- Test for the event that opens a mermaid block. -/
def isTargetStart : Event → Bool
  | .start (.codeBlock l) => l == "mermaid"
  | _ => false

/-- Events of one segment as they appear in the input stream. -/
def renderSeg : Seg → List Event
  | .mermaidBlock ts =>
      Event.start (.codeBlock "mermaid") :: (ts.map Event.text ++ [Event.stop (.codeBlock "mermaid")])
  | .passthrough e => [e]

/-- The replacement container around the text of a block. -/
def wrapPre (t : String) : String := "<pre class=\"mermaid\">" ++ t ++ "</pre>\n\n"

/-- Events of one segment after the transformation: a mermaid block becomes
exactly one raw HTML event wrapping its own text; a passthrough event stays
itself. -/
def transformedSeg : Seg → List Event
  | .mermaidBlock ts => [Event.html (wrapPre (String.join ts))]
  | .passthrough e => [e]

/-- Well-formedness of a segment: a passthrough event is not itself the
opening of a mermaid block (those belong to a mermaidBlock segment). -/
def segOk : Seg → Bool
  | .passthrough e => !isTargetStart e
  | .mermaidBlock _ => true

/-- A passthrough segment that is not a raw HTML event (used when counting
the HTML replacements produced by the transformation). -/
def segNoRawHtml : Seg → Bool
  | .passthrough (.html _) => false
  | _ => true

/-- The payloads of the raw HTML events of a stream, in order. -/
def htmlPayloads (evs : List Event) : List String :=
  evs.filterMap (fun e => match e with | .html h => some h | _ => none)

/-- The joined text of each mermaid block segment, in order. -/
def mermaidSegTexts (segs : List Seg) : List String :=
  segs.filterMap (fun sg => match sg with | .mermaidBlock ts => some (String.join ts) | _ => none)

/-! Helper lemmas about the transformer. -/

/-- Outside a mermaid block, any event that is not the opening of a mermaid
block passes through with the state unchanged. -/
lemma step_pass (s : MState) (e : Event) (hs : s.in_mermaid_block = false)
    (he : isTargetStart e = false) : step s e = .ok (s, some e) := by
  cases e with
  | start t =>
      cases t with
      | codeBlock l =>
          simp only [isTargetStart, beq_eq_false_iff_ne, ne_eq] at he
          simp [step, he]
      | paragraph => simp [step, hs]
      | header n => simp [step, hs]
      | table a => simp [step, hs]
      | tableHead => simp [step, hs]
      | tableRow => simp [step, hs]
      | tableCell => simp [step, hs]
  | stop t => simp [step, hs]
  | text t => simp [step, hs]
  | html t => simp [step, hs]

/-- Outside a mermaid block, a stream with no mermaid opening passes through
unchanged, state included. -/
lemma processEvents_pass (s : MState) (hs : s.in_mermaid_block = false) :
    ∀ evs : List Event, evs.all (fun e => !isTargetStart e) = true →
      processEvents s evs = .ok (evs, s) := by
  intro evs
  induction evs with
  | nil => intro _; simp [processEvents]
  | cons e es ih =>
      intro h
      simp only [List.all_cons, Bool.and_eq_true, Bool.not_eq_true'] at h
      have hstep := step_pass s e hs h.1
      have hrest := ih (by simpa using h.2)
      simp [processEvents, hstep, hrest]

/-- Composition of two successful runs over concatenated streams. -/
lemma processEvents_ok_append {s s' s'' : MState} {xs ys o1 o2 : List Event}
    (h1 : processEvents s xs = .ok (o1, s'))
    (h2 : processEvents s' ys = .ok (o2, s'')) :
    processEvents s (xs ++ ys) = .ok (o1 ++ o2, s'') := by
  induction xs generalizing s o1 with
  | nil =>
      simp only [processEvents, Except.ok.injEq, Prod.mk.injEq] at h1
      obtain ⟨rfl, rfl⟩ := h1
      simpa using h2
  | cons x xs ih =>
      rw [List.cons_append]
      simp only [processEvents] at h1 ⊢
      cases hstep : step s x with
      | error err =>
          rw [hstep] at h1
          simp at h1
      | ok p =>
          obtain ⟨t, oe⟩ := p
          rw [hstep] at h1
          dsimp only at h1 ⊢
          cases hrest : processEvents t xs with
          | error err =>
              rw [hrest] at h1
              simp at h1
          | ok q =>
              obtain ⟨o, sfin⟩ := q
              rw [hrest] at h1
              simp only [Except.ok.injEq, Prod.mk.injEq] at h1
              obtain ⟨rfl, rfl⟩ := h1
              rw [ih hrest]
              simp [List.append_assoc]

/-- A failing run over a prefix fails over the whole stream. -/
lemma processEvents_error_append {s : MState} {xs ys : List Event} {err : MermaidError}
    (h1 : processEvents s xs = .error err) :
    processEvents s (xs ++ ys) = .error err := by
  induction xs generalizing s with
  | nil => simp [processEvents] at h1
  | cons x xs ih =>
      rw [List.cons_append]
      simp only [processEvents] at h1 ⊢
      cases hstep : step s x with
      | error e =>
          rw [hstep] at h1
      | ok p =>
          obtain ⟨t, oe⟩ := p
          rw [hstep] at h1
          dsimp only at h1 ⊢
          cases hrest : processEvents t xs with
          | error e =>
              rw [hrest] at h1
              dsimp only at h1
              rw [ih hrest]
          | ok q =>
              rw [hrest] at h1
              simp at h1

/-- A successful run over a prefix followed by a failing run over the suffix
fails over the whole stream. -/
lemma processEvents_ok_then_error {s s' : MState} {xs ys o1 : List Event} {err : MermaidError}
    (h1 : processEvents s xs = .ok (o1, s'))
    (h2 : processEvents s' ys = .error err) :
    processEvents s (xs ++ ys) = .error err := by
  induction xs generalizing s o1 with
  | nil =>
      simp only [processEvents, Except.ok.injEq, Prod.mk.injEq] at h1
      obtain ⟨rfl, rfl⟩ := h1
      simpa using h2
  | cons x xs ih =>
      rw [List.cons_append]
      simp only [processEvents] at h1 ⊢
      cases hstep : step s x with
      | error e =>
          rw [hstep] at h1
      | ok p =>
          obtain ⟨t, oe⟩ := p
          rw [hstep] at h1
          dsimp only at h1 ⊢
          cases hrest : processEvents t xs with
          | error e =>
              rw [hrest] at h1
              simp at h1
          | ok q =>
              obtain ⟨o, sfin⟩ := q
              rw [hrest] at h1
              simp only [Except.ok.injEq, Prod.mk.injEq] at h1
              obtain ⟨rfl, rfl⟩ := h1
              rw [ih hrest]

/-- Inside a mermaid block, a run of text events is absorbed into the
accumulator and nothing is emitted. -/
lemma processEvents_texts (ts : List String) :
    ∀ a : String,
      processEvents { in_mermaid_block := true, mermaid_content := a } (ts.map Event.text) =
        .ok ([], { in_mermaid_block := true, mermaid_content := ts.foldl (· ++ ·) a }) := by
  induction ts with
  | nil => intro a; simp [processEvents]
  | cons t ts ih =>
      intro a
      simp [processEvents, step, ih (a ++ t)]

/-- A whole mermaid block is consumed into exactly one raw HTML event
wrapping the joined text of the block, from any starting state. -/
lemma processEvents_mermaidBlock (s : MState) (ts : List String) :
    processEvents s (renderSeg (.mermaidBlock ts)) =
      .ok ([Event.html (wrapPre (String.join ts))],
           { in_mermaid_block := false, mermaid_content := String.join ts }) := by
  have hstart : step s (Event.start (.codeBlock "mermaid")) =
      .ok ({ in_mermaid_block := true, mermaid_content := "" }, none) := by
    simp [step]
  have htexts := processEvents_texts ts ""
  have hjoin : ts.foldl (· ++ ·) "" = String.join ts := rfl
  rw [hjoin] at htexts
  have hstop : processEvents { in_mermaid_block := true, mermaid_content := String.join ts }
      [Event.stop (.codeBlock "mermaid")] =
      .ok ([Event.html (wrapPre (String.join ts))],
           { in_mermaid_block := false, mermaid_content := String.join ts }) := by
    simp [processEvents, step, wrapPre]
  have hrest := processEvents_ok_append htexts hstop
  simp only [renderSeg, processEvents, hstart]
  rw [hrest]
  dsimp only
  simp

/-- Main segment lemma: a well-formed segmented stream is transformed
segmentwise, the final state being outside any block. -/
lemma processEvents_segments (segs : List Seg) (h : ∀ sg ∈ segs, segOk sg = true) :
    ∀ s : MState, s.in_mermaid_block = false →
      ∃ s' : MState,
        processEvents s (segs.flatMap renderSeg) = .ok (segs.flatMap transformedSeg, s') ∧
          s'.in_mermaid_block = false := by
  induction segs with
  | nil =>
      intro s hs
      exact ⟨s, by simp [processEvents], hs⟩
  | cons sg segs ih =>
      intro s hs
      have hsg : segOk sg = true := h sg (List.mem_cons_self sg segs)
      have htail : ∀ x ∈ segs, segOk x = true := fun x hx => h x (List.mem_cons_of_mem sg hx)
      cases sg with
      | mermaidBlock ts =>
          obtain ⟨s', h2, hs'⟩ :=
            ih htail { in_mermaid_block := false, mermaid_content := String.join ts } rfl
          refine ⟨s', ?_, hs'⟩
          have h1 := processEvents_mermaidBlock s ts
          have := processEvents_ok_append h1 h2
          simpa [List.flatMap_cons, transformedSeg] using this
      | passthrough e =>
          have he : isTargetStart e = false := by
            simpa [segOk, Bool.not_eq_true'] using hsg
          obtain ⟨s', h2, hs'⟩ := ih htail s hs
          refine ⟨s', ?_, hs'⟩
          have h1 : processEvents s (renderSeg (.passthrough e)) = .ok ([e], s) := by
            simp [renderSeg, processEvents, step_pass s e hs he]
          have := processEvents_ok_append h1 h2
          simpa [List.flatMap_cons, transformedSeg] using this

/-- The HTML payloads of a transformed segmented stream, when no passthrough
event is itself raw HTML, are exactly the wrapped texts of the mermaid
blocks, in order. -/
lemma htmlPayloads_transformedSegs (segs : List Seg)
    (h : ∀ sg ∈ segs, segNoRawHtml sg = true) :
    htmlPayloads (segs.flatMap transformedSeg) = (mermaidSegTexts segs).map wrapPre := by
  induction segs with
  | nil => simp [htmlPayloads, mermaidSegTexts]
  | cons sg segs ih =>
      have hsg : segNoRawHtml sg = true := h sg (List.mem_cons_self sg segs)
      have htail : ∀ x ∈ segs, segNoRawHtml x = true := fun x hx => h x (List.mem_cons_of_mem sg hx)
      cases sg with
      | mermaidBlock ts =>
          simp [htmlPayloads, mermaidSegTexts, transformedSeg, List.filterMap_append] at ih ⊢
          exact ih htail
      | passthrough e =>
          cases e with
          | html p => simp [segNoRawHtml] at hsg
          | start t =>
              simp [htmlPayloads, mermaidSegTexts, transformedSeg, List.filterMap_append] at ih ⊢
              exact ih htail
          | stop t =>
              simp [htmlPayloads, mermaidSegTexts, transformedSeg, List.filterMap_append] at ih ⊢
              exact ih htail
          | text t =>
              simp [htmlPayloads, mermaidSegTexts, transformedSeg, List.filterMap_append] at ih ⊢
              exact ih htail

/-! Claim theorems. -/

/-- Claim C1: for every matched mermaid block, the single emitted raw HTML event
has exactly the payload: opening container tag, verbatim accumulated text
with no escaping, closing tag, blank line separator; and on the concrete
input of the adds_mermaid test, add_mermaid returns exactly the expected
rewritten document. -/
theorem C1_raw_html_payload_exact :
    (∀ acc : String,
        step { in_mermaid_block := true, mermaid_content := acc }
            (Event.stop (.codeBlock "mermaid")) =
          .ok ({ in_mermaid_block := false, mermaid_content := acc },
               some (Event.html ("<pre class=\"mermaid\">" ++ acc ++ "</pre>\n\n")))) ∧
      add_mermaid "# Chapter\n\n```mermaid\ngraph TD\nA --> B\n```\n\nText\n" =
        .ok "# Chapter\n\n<pre class=\"mermaid\">graph TD\nA --> B\n</pre>\n\nText" := by
  constructor
  · intro acc
    simp [step]
  · rfl

/-- Claim C2: a mermaid Start followed, after any text runs, by an End carrying a
different label makes the whole transformation of the document surface the
internal consistency fault instead of producing output. -/
theorem C2_mismatched_end_aborts (texts : List String) (l : String) (rest : List Event)
    (h : l ≠ "mermaid") :
    processEvents { in_mermaid_block := false, mermaid_content := "" }
        (Event.start (.codeBlock "mermaid") ::
          (texts.map Event.text ++ (Event.stop (.codeBlock l) :: rest))) =
      .error .internalConsistencyFault := by
  have hstart : step { in_mermaid_block := false, mermaid_content := "" }
      (Event.start (.codeBlock "mermaid")) =
      .ok ({ in_mermaid_block := true, mermaid_content := "" }, none) := by
    simp [step]
  have htexts := processEvents_texts texts ""
  have hstop : processEvents
      { in_mermaid_block := true, mermaid_content := texts.foldl (· ++ ·) "" }
      (Event.stop (.codeBlock l) :: rest) = .error .internalConsistencyFault := by
    simp [processEvents, step, h]
  have hmid := processEvents_ok_then_error htexts hstop
  simp only [processEvents, hstart]
  rw [hmid]

/-- Claim C2 witness: a concrete token sequence where a mermaid Start is followed
by a python End surfaces the internal consistency fault. -/
theorem C2_mismatched_end_aborts_witness :
    ("python" : String) ≠ "mermaid" ∧
      processEvents { in_mermaid_block := false, mermaid_content := "" }
          (Event.start (.codeBlock "mermaid") ::
            (["graph TD\n"].map Event.text ++ (Event.stop (.codeBlock "python") :: []))) =
        .error .internalConsistencyFault :=
  ⟨by decide, C2_mismatched_end_aborts ["graph TD\n"] "python" [] (by decide)⟩

/-- Claim C3: any input whose event stream contains no mermaid block opening is
returned by add_mermaid unchanged up to the insignificant-whitespace
normalization of the parse and serialize roundtrip. -/
theorem C3_no_target_roundtrip (x : String)
    (h : (parse opts x).all (fun e => !isTargetStart e) = true) :
    add_mermaid x = .ok (normalize x) := by
  have hpass := processEvents_pass { in_mermaid_block := false, mermaid_content := "" } rfl
    (parse opts x) h
  simp [add_mermaid, hpass, normalize]

/-- Claim C3 witness: the table document of the leaves_tables_untouched regression
test contains no mermaid block and roundtrips to its normalized form. -/
theorem C3_no_target_roundtrip_witness :
    ((parse opts "# Heading\n\n| Head 1 | Head 2 |\n|--------|--------|\n| Row 1  | Row 2  |\n").all
        (fun e => !isTargetStart e) = true) ∧
      add_mermaid "# Heading\n\n| Head 1 | Head 2 |\n|--------|--------|\n| Row 1  | Row 2  |\n" =
        .ok (normalize "# Heading\n\n| Head 1 | Head 2 |\n|--------|--------|\n| Row 1  | Row 2  |\n") :=
  ⟨by decide,
   C3_no_target_roundtrip "# Heading\n\n| Head 1 | Head 2 |\n|--------|--------|\n| Row 1  | Row 2  |\n"
     (by decide)⟩

/-- Claim C4: a fenced code block with a label other than mermaid passes through
the transformer completely unchanged, fence markers and all internal text
events included, for any block content and from any outside state. -/
theorem C4_nontarget_block_passthrough (s : MState) (hs : s.in_mermaid_block = false)
    (l : String) (hl : l ≠ "mermaid") (texts : List String) :
    processEvents s
        (Event.start (.codeBlock l) :: (texts.map Event.text ++ [Event.stop (.codeBlock l)])) =
      .ok (Event.start (.codeBlock l) :: (texts.map Event.text ++ [Event.stop (.codeBlock l)]), s) := by
  apply processEvents_pass s hs
  simp only [List.all_cons, List.all_append, Bool.and_eq_true]
  refine ⟨by simp [isTargetStart, hl], ?_, by simp [isTargetStart]⟩
  apply List.all_eq_true.mpr
  intro e he
  obtain ⟨t, _, rfl⟩ := List.mem_map.mp he
  simp [isTargetStart]

/-- Claim C4 witness: a concrete python block with one text run passes through
unchanged. -/
theorem C4_nontarget_block_passthrough_witness :
    (({ in_mermaid_block := false, mermaid_content := "" } : MState).in_mermaid_block = false) ∧
      ("python" : String) ≠ "mermaid" ∧
      processEvents { in_mermaid_block := false, mermaid_content := "" }
          (Event.start (.codeBlock "python") ::
            (["print(1)\n"].map Event.text ++ [Event.stop (.codeBlock "python")])) =
        .ok (Event.start (.codeBlock "python") ::
              (["print(1)\n"].map Event.text ++ [Event.stop (.codeBlock "python")]),
             { in_mermaid_block := false, mermaid_content := "" }) :=
  ⟨rfl, by decide,
   C4_nontarget_block_passthrough { in_mermaid_block := false, mermaid_content := "" } rfl
     "python" (by decide) ["print(1)\n"]⟩

/-- Claim C5: a document with N mermaid blocks produces exactly N raw HTML
replacement events, whose payloads are, in order, exactly the wrapped texts
of the blocks, each scoped to its own block with no cross contamination. -/
theorem C5_independent_replacements (segs : List Seg)
    (h : ∀ sg ∈ segs, segOk sg = true ∧ segNoRawHtml sg = true) :
    ∃ (out : List Event) (s' : MState),
      processEvents { in_mermaid_block := false, mermaid_content := "" }
          (segs.flatMap renderSeg) = .ok (out, s') ∧
        htmlPayloads out = (mermaidSegTexts segs).map wrapPre ∧
        (htmlPayloads out).length = (mermaidSegTexts segs).length := by
  obtain ⟨s', hrun, _⟩ := processEvents_segments segs (fun sg hsg => (h sg hsg).1)
    { in_mermaid_block := false, mermaid_content := "" } rfl
  have hpay := htmlPayloads_transformedSegs segs (fun sg hsg => (h sg hsg).2)
  exact ⟨_, s', hrun, hpay, by rw [hpay, List.length_map]⟩

/-- Claim C5 witness: a document with two mermaid blocks, one of two text runs,
produces exactly the two replacements with their own texts. -/
theorem C5_independent_replacements_witness :
    (∀ sg ∈ [Seg.passthrough (Event.start .paragraph), Seg.mermaidBlock ["A --> B\n"],
             Seg.passthrough (Event.text "middle"), Seg.mermaidBlock ["C\n", "D\n"]],
        segOk sg = true ∧ segNoRawHtml sg = true) ∧
      (∃ (out : List Event) (s' : MState),
        processEvents { in_mermaid_block := false, mermaid_content := "" }
            ([Seg.passthrough (Event.start .paragraph), Seg.mermaidBlock ["A --> B\n"],
              Seg.passthrough (Event.text "middle"),
              Seg.mermaidBlock ["C\n", "D\n"]].flatMap renderSeg) = .ok (out, s') ∧
          htmlPayloads out =
            (mermaidSegTexts [Seg.passthrough (Event.start .paragraph),
              Seg.mermaidBlock ["A --> B\n"], Seg.passthrough (Event.text "middle"),
              Seg.mermaidBlock ["C\n", "D\n"]]).map wrapPre ∧
          (htmlPayloads out).length =
            (mermaidSegTexts [Seg.passthrough (Event.start .paragraph),
              Seg.mermaidBlock ["A --> B\n"], Seg.passthrough (Event.text "middle"),
              Seg.mermaidBlock ["C\n", "D\n"]]).length) :=
  ⟨by decide,
   C5_independent_replacements [Seg.passthrough (Event.start .paragraph),
     Seg.mermaidBlock ["A --> B\n"], Seg.passthrough (Event.text "middle"),
     Seg.mermaidBlock ["C\n", "D\n"]] (by decide)⟩

/-- Claim C6 counterexample: the claim that the identical extension configuration
is applied to the re-serialization step fails on the code: the cmark call
receives no extension configuration at all, so the configuration applied to
serialization is none rather than the parser flag set. -/
theorem C6_serializer_gets_no_options : ¬ (serialize_options = some opts) := by
  decide

/-- Claim C6 amended: the extension flags are declared exactly once, as the single
opts value listing tables, footnotes, strikethrough and task lists, and that
value is applied to the parse step; the re-serialization call passes no
extension configuration (None), so no second, possibly diverging declaration
exists. -/
theorem C6_options_declared_once :
    opts = [MarkdownOption.tables, MarkdownOption.footnotes, MarkdownOption.strikethrough,
            MarkdownOption.tasklists] ∧
      serialize_options = none ∧
      (∀ content : String, add_mermaid content =
        match processEvents { in_mermaid_block := false, mermaid_content := "" }
            (parse opts content) with
        | .error e => .error e
        | .ok (evs, _) => .ok (cmark evs)) := by
  exact ⟨by decide, rfl, fun content => rfl⟩

/-- Claim C7: on a well-formed segmented document the output event sequence is
exactly the input sequence with each mermaid block replaced, in place at the
position of its End event, by its single replacement event; all
non-discarded events keep their relative order. -/
theorem C7_order_preserved (segs : List Seg) (h : ∀ sg ∈ segs, segOk sg = true) :
    ∃ s' : MState,
      processEvents { in_mermaid_block := false, mermaid_content := "" }
          (segs.flatMap renderSeg) = .ok (segs.flatMap transformedSeg, s') := by
  obtain ⟨s', hrun, _⟩ := processEvents_segments segs h
    { in_mermaid_block := false, mermaid_content := "" } rfl
  exact ⟨s', hrun⟩

/-- Claim C7 witness: a concrete document of one heading, one mermaid block and
one trailing text keeps the surrounding events in order around the single
replacement. -/
theorem C7_order_preserved_witness :
    (∀ sg ∈ [Seg.passthrough (Event.start (.header 1)), Seg.passthrough (Event.text "T"),
             Seg.passthrough (Event.stop (.header 1)), Seg.mermaidBlock ["X\n"],
             Seg.passthrough (Event.text "after")],
        segOk sg = true) ∧
      (∃ s' : MState,
        processEvents { in_mermaid_block := false, mermaid_content := "" }
            ([Seg.passthrough (Event.start (.header 1)), Seg.passthrough (Event.text "T"),
              Seg.passthrough (Event.stop (.header 1)), Seg.mermaidBlock ["X\n"],
              Seg.passthrough (Event.text "after")].flatMap renderSeg) =
          .ok ([Seg.passthrough (Event.start (.header 1)), Seg.passthrough (Event.text "T"),
                Seg.passthrough (Event.stop (.header 1)), Seg.mermaidBlock ["X\n"],
                Seg.passthrough (Event.text "after")].flatMap transformedSeg, s')) :=
  ⟨by decide,
   C7_order_preserved [Seg.passthrough (Event.start (.header 1)), Seg.passthrough (Event.text "T"),
     Seg.passthrough (Event.stop (.header 1)), Seg.mermaidBlock ["X\n"],
     Seg.passthrough (Event.text "after")] (by decide)⟩

/-- Successful runs of the walker rewrite the tree chapterwise: the shape,
the separators and the other chapter fields survive, every content body is
replaced by the add_mermaid output, and sub items are processed
recursively. -/
theorem apply_to_sections_chapterwise : ∀ (items out : List BookItem),
    apply_to_sections items = .ok out → ChapterwiseRewritten items out
  | [], out, h => by
      simp only [apply_to_sections, Except.ok.injEq] at h
      subst h
      exact .nil
  | .separator :: rest, out, h => by
      simp only [apply_to_sections] at h
      cases hrest : apply_to_sections rest with
      | error e =>
          rw [hrest] at h
          simp at h
      | ok rest' =>
          rw [hrest] at h
          dsimp only at h
          simp only [Except.ok.injEq] at h
          subst h
          exact .sep (apply_to_sections_chapterwise rest rest' hrest)
  | .chapter n c p subs :: rest, out, h => by
      simp only [apply_to_sections] at h
      cases hc : add_mermaid c with
      | error e =>
          rw [hc] at h
          simp at h
      | ok c' =>
          rw [hc] at h
          dsimp only at h
          cases hs : apply_to_sections subs with
          | error e =>
              rw [hs] at h
              simp at h
          | ok subs' =>
              rw [hs] at h
              dsimp only at h
              cases hr : apply_to_sections rest with
              | error e =>
                  rw [hr] at h
                  simp at h
              | ok rest' =>
                  rw [hr] at h
                  dsimp only at h
                  simp only [Except.ok.injEq] at h
                  subst h
                  exact .chap hc (apply_to_sections_chapterwise subs subs' hs)
                    (apply_to_sections_chapterwise rest rest' hr)

/-- Claim C8: running the preprocessor on a book rewrites every chapter body in
place through the transform and serialize pipeline, recurses into every
nested sub chapter, and leaves separators, the tree shape and all other
chapter fields unchanged. -/
theorem C8_preprocessor_rewrites_in_place (book book' : Book) (h : run book = .ok book') :
    ChapterwiseRewritten book.sections book'.sections := by
  simp only [run] at h
  cases hsec : apply_to_sections book.sections with
  | error e =>
      rw [hsec] at h
      simp at h
  | ok sections' =>
      rw [hsec] at h
      dsimp only at h
      simp only [Except.ok.injEq] at h
      subst h
      exact apply_to_sections_chapterwise book.sections sections' hsec

/-- Evaluation of add_mermaid on the mermaid chapter body of the witness
book. -/
theorem bookEval_mermaid :
    add_mermaid "```mermaid\nA\n```\n" = .ok "<pre class=\"mermaid\">A\n</pre>\n\n" := by
  rfl

/-- Evaluation of add_mermaid on the plain chapter body of the witness
book. -/
theorem bookEval_plain : add_mermaid "hello\n" = .ok "hello" := by
  rfl

/-- The walker on an empty section list. -/
theorem bookEval_nil : apply_to_sections [] = .ok [] := by
  simp only [apply_to_sections]

/-- The walker on the nested plain chapter of the witness book. -/
theorem bookEval_sub1 : apply_to_sections [BookItem.chapter "c2" "hello\n" "p2" []] =
    .ok [BookItem.chapter "c2" "hello" "p2" []] := by
  simp only [apply_to_sections, bookEval_plain, bookEval_nil]

/-- The walker on the sub items of the witness book. -/
theorem bookEval_subs :
    apply_to_sections [BookItem.separator, BookItem.chapter "c2" "hello\n" "p2" []] =
      .ok [BookItem.separator, BookItem.chapter "c2" "hello" "p2" []] := by
  simp only [apply_to_sections, bookEval_sub1]

/-- The walker on a lone separator. -/
theorem bookEval_sep : apply_to_sections [BookItem.separator] = .ok [BookItem.separator] := by
  simp only [apply_to_sections, bookEval_nil]

/-- The walker on the top sections of the witness book. -/
theorem bookEval_top : apply_to_sections [BookItem.chapter "c1" "```mermaid\nA\n```\n" "p1"
    [BookItem.separator, BookItem.chapter "c2" "hello\n" "p2" []], BookItem.separator] =
    .ok [BookItem.chapter "c1" "<pre class=\"mermaid\">A\n</pre>\n\n" "p1"
      [BookItem.separator, BookItem.chapter "c2" "hello" "p2" []], BookItem.separator] := by
  simp only [apply_to_sections, bookEval_mermaid, bookEval_subs, bookEval_sep]

/-- Lifts a walker equation to the run entry point. -/
theorem run_mk (items out : List BookItem) (h : apply_to_sections items = .ok out) :
    run { sections := items } = .ok { sections := out } := by
  unfold run
  rw [show (Book.mk items).sections = items from rfl, h]

/-- Claim C8 witness: a concrete two level book with a mermaid chapter, a nested
plain chapter and separators is rewritten chapterwise. -/
theorem C8_preprocessor_rewrites_in_place_witness :
    run { sections := [BookItem.chapter "c1" "```mermaid\nA\n```\n" "p1"
            [BookItem.separator, BookItem.chapter "c2" "hello\n" "p2" []],
          BookItem.separator] } =
        .ok { sections := [BookItem.chapter "c1" "<pre class=\"mermaid\">A\n</pre>\n\n" "p1"
                [BookItem.separator, BookItem.chapter "c2" "hello" "p2" []],
              BookItem.separator] } ∧
      ChapterwiseRewritten
        [BookItem.chapter "c1" "```mermaid\nA\n```\n" "p1"
          [BookItem.separator, BookItem.chapter "c2" "hello\n" "p2" []],
         BookItem.separator]
        [BookItem.chapter "c1" "<pre class=\"mermaid\">A\n</pre>\n\n" "p1"
          [BookItem.separator, BookItem.chapter "c2" "hello" "p2" []],
         BookItem.separator] :=
  ⟨run_mk _ _ bookEval_top,
   C8_preprocessor_rewrites_in_place
     { sections := [BookItem.chapter "c1" "```mermaid\nA\n```\n" "p1"
         [BookItem.separator, BookItem.chapter "c2" "hello\n" "p2" []],
       BookItem.separator] }
     { sections := [BookItem.chapter "c1" "<pre class=\"mermaid\">A\n</pre>\n\n" "p1"
         [BookItem.separator, BookItem.chapter "c2" "hello" "p2" []],
       BookItem.separator] }
     (run_mk _ _ bookEval_top)⟩

/-- Claim C9: the transformation is deterministic and pure: add_mermaid is a
function of the input text alone, so two runs on equal inputs give equal
results; the embedding has no state shared across calls and performs no
input or output. -/
theorem C9_deterministic (c₁ c₂ : String) (h : c₁ = c₂) :
    add_mermaid c₁ = add_mermaid c₂ := by
  rw [h]

/-- Claim C9 witness: two runs on the same concrete input agree. -/
theorem C9_deterministic_witness :
    ("# A\n" : String) = "# A\n" ∧ add_mermaid "# A\n" = add_mermaid "# A\n" :=
  ⟨rfl, C9_deterministic "# A\n" "# A\n" rfl⟩

/-- Claim C10: a mermaid block with no text content is still replaced: the empty
accumulator is flushed into the raw HTML event whose payload is the empty
container followed by the blank line separator, at the event level and end
to end through add_mermaid. -/
theorem C10_empty_block_flushed :
    processEvents { in_mermaid_block := false, mermaid_content := "" }
        [Event.start (.codeBlock "mermaid"), Event.stop (.codeBlock "mermaid")] =
      .ok ([Event.html "<pre class=\"mermaid\"></pre>\n\n"],
           { in_mermaid_block := false, mermaid_content := "" }) ∧
      add_mermaid "```mermaid\n```\n" = .ok "<pre class=\"mermaid\"></pre>\n\n" := by
  constructor
  · rfl
  · rfl

end MdbookMermaid
